import Mathlib

/-!
Shallow embedding of the worker lifecycle controller implemented by the
`useWebworker` React hook (src/lib/useWebworker.ts) of the
react-use-webworker repository, together with proofs about the claims of
its specification.

Modelling notes, each point mirroring a line of the source:
* The hook state (`data`, `error`, `status` React state; `workerRef`,
  `timeoutRef` refs) becomes the record `HookState`.  Opaque message
  payloads are modelled as `Option Nat` (a worker message's `event.data`
  may be `null`), worker handles as numeric ids handed out by a counter,
  and timeout tokens as numeric ids handed out by a counter starting at 1
  (browser `setTimeout` tokens are positive, so the source's truthiness
  test `if (timeoutRef.current)` coincides with the `Option` being set).
* Ghost fields record the externally observable interactions: `termLog`
  (the sequence of handle ids whose `terminate()` capability was invoked),
  `sent` (messages forwarded to a handle by `postMessage`), `warnings`
  (strings passed to `console.warn`), `spawned` (handle ids created), and
  `pending` (the host's queue of scheduled, not-yet-fired, not-cancelled
  timeout callbacks, each paired with the status value its closure
  captured at the render whose effect scheduled it — the effect omits
  `status` from its dependency array, so the callback reads that captured
  value, not the live one).
* Each callback dispatched on the control thread is a function
  `HookState → HookState`; the host's interleaving of callbacks is the
  event list of `runEvents` / the `Reachable` relation.  A message or
  error event can only be delivered by a live handle, and a timeout can
  only fire while it is still pending, which is exactly the browser's
  behaviour.
-/

namespace UseWebworker

/-- The five-way status enumeration `WorkerStatus` of the source. -/
inductive WorkerStatus
  | idle
  | running
  | success
  | error
  | terminated
deriving DecidableEq, Repr

/-- Values held by the `error` state variable: a relayed `ErrorEvent`
from the worker, a value thrown during construction, or a fresh
`new Error(msg)` built by the hook itself. -/
inductive WErr
  | workerEvent (e : Nat)
  | thrown (e : Nat)
  | errMsg (msg : String)
deriving DecidableEq, Repr

/-- The whole state of one hook instance plus ghost observation logs. -/
structure HookState where
  data : Option Nat
  error : Option WErr
  status : WorkerStatus
  workerRef : Option Nat
  timeoutRef : Option Nat
  pending : List (Nat × WorkerStatus)
  nextHandle : Nat
  nextToken : Nat
  termLog : List Nat
  sent : List (Nat × Nat)
  warnings : List String
  spawned : List Nat
deriving DecidableEq, Repr

/-- The source descriptor argument `workerSource`: falsy (empty string /
absent), a source whose spawn succeeds, or one whose spawn throws `e`
(either the factory throwing or `new Worker` throwing). -/
inductive Source
  | empty
  | ok
  | fail (e : Nat)
deriving DecidableEq, Repr

/-- Embeds the snippet
`if (timeoutRef.current) { clearTimeout(timeoutRef.current); timeoutRef.current = undefined; }`
that appears in `terminateWorker`, `onmessage` and `onerror`:
cancel the scheduled callback the ref points to and clear the ref. -/
def clearTimeoutRef (s : HookState) : HookState :=
  match s.timeoutRef with
  | some t =>
      { s with timeoutRef := none
               pending := s.pending.filter (fun q => q.1 != t) }
  | none => s

/-- Embeds `terminateWorker`: if a live handle exists, invoke its
terminate capability, drop the ref, set status `terminated`, clear data
and error, and cancel any pending timeout; otherwise do nothing. -/
def terminateWorker (s : HookState) : HookState :=
  match s.workerRef with
  | some w =>
      clearTimeoutRef
        { s with termLog := s.termLog ++ [w]
                 workerRef := none
                 status := .terminated
                 data := none
                 error := none }
  | none => s

/-- Embeds the `workerInstance.onmessage` relay: store the payload in
`data`, set status `success`, clear `error`, cancel any pending
timeout. -/
def onmessage (d : Option Nat) (s : HookState) : HookState :=
  clearTimeoutRef { s with data := d, status := .success, error := none }

/-- Embeds the `workerInstance.onerror` relay: store the event in
`error`, set status `error`, clear `data`, cancel any pending
timeout. -/
def onerror (e : Nat) (s : HookState) : HookState :=
  clearTimeoutRef
    { s with error := some (.workerEvent e), status := .error, data := none }

/-- The diagnostic string of the source's `postMessage` failure branch. -/
def warnText : String := "Worker is not running or has been terminated."

/-- Embeds the `else` branch of `postMessage`: `console.warn(...)`,
`setError(new Error(...))`, `setStatus("error")`. -/
def postFailure (s : HookState) : HookState :=
  { s with warnings := s.warnings ++ [warnText]
           error := some (.errMsg warnText)
           status := .error }

/-- Embeds `postMessage`: with a live handle and status not
`terminated`, forward the payload to the handle verbatim; otherwise run
the failure branch. -/
def postMessage (m : Nat) (s : HookState) : HookState :=
  match s.workerRef with
  | some w =>
      if s.status ≠ .terminated then { s with sent := s.sent ++ [(w, m)] }
      else postFailure s
  | none => postFailure s

/-- The message of the `Error` value built when the timeout fires. -/
def timedOutText : String := "Worker timed out"

/-- Embeds the body of the timeout callback scheduled by the effect.
`c` is the `status` value the callback's closure captured at the render
whose effect scheduled it (the effect's dependency array omits
`status`).  The source reads
`if (status !== "success" && status !== "error") { terminateWorker(); setError(new Error("Worker timed out")); setStatus("error"); }`. -/
def timeoutAction (c : WorkerStatus) (s : HookState) : HookState :=
  if c ≠ .success ∧ c ≠ .error then
    { terminateWorker s with
        error := some (.errMsg timedOutText), status := .error }
  else s

/-- Embeds the body of the initialization effect (after the cleanup of
the previous cycle has run): the empty-source early return, handle
construction with success and failure branches, the `running`
transition, and the scheduling of the timeout when
`options?.timeout` is truthy.  `renderStatus` is the `status` value of
the render whose effect this is; it is what the timeout callback's
closure captures. -/
def effectBody (src : Source) (tmo : Nat) (renderStatus : WorkerStatus)
    (s : HookState) : HookState :=
  match src with
  | .empty => s
  | .ok =>
      let h := s.nextHandle
      let s1 := { s with workerRef := some h
                         spawned := s.spawned ++ [h]
                         nextHandle := h + 1
                         status := .running }
      if tmo ≠ 0 then
        { s1 with timeoutRef := some s1.nextToken
                  pending := s1.pending ++ [(s1.nextToken, renderStatus)]
                  nextToken := s1.nextToken + 1 }
      else s1
  | .fail e => { s with error := some (.thrown e), status := .error }

/-- One run of the initialization effect as React performs it on mount or
on a dependency change: the cleanup of the previous cycle
(`terminateWorker`, a no-op on mount) followed by the body.  The status
captured by the scheduled timeout closure is the state's status at the
start of the run — the render's value, unaffected by the `setStatus`
calls the cleanup itself issues. -/
def effectRun (src : Source) (tmo : Nat) (s : HookState) : HookState :=
  effectBody src tmo s.status (terminateWorker s)

/-- The control-thread callbacks the host can dispatch. -/
inductive Event
  | reinit (src : Source) (tmo : Nat)
  | message (d : Option Nat)
  | workerError (e : Nat)
  | post (m : Nat)
  | terminate
  | fire (t : Nat)
deriving DecidableEq, Repr

/-- One dispatch of an event.  `none` means the event is not enabled:
message and error relays require a live handle (they are the handlers of
the live worker instance), and a timeout can only fire while still in
the host's pending queue. -/
def step (ev : Event) (s : HookState) : Option HookState :=
  match ev with
  | .reinit src tmo => some (effectRun src tmo s)
  | .message d =>
      if s.workerRef.isSome then some (onmessage d s) else none
  | .workerError e =>
      if s.workerRef.isSome then some (onerror e s) else none
  | .post m => some (postMessage m s)
  | .terminate => some (terminateWorker s)
  | .fire t =>
      match s.pending.find? (fun p => p.1 == t) with
      | some p =>
          some (timeoutAction p.2
            { s with pending := s.pending.filter (fun q => q.1 != t) })
      | none => none

/-- The state of a freshly mounted hook instance before its first effect
runs: everything null, status `idle`. -/
def initialState : HookState :=
  { data := none
    error := none
    status := .idle
    workerRef := none
    timeoutRef := none
    pending := []
    nextHandle := 0
    nextToken := 1
    termLog := []
    sent := []
    warnings := []
    spawned := [] }

/-- Run a list of events from a state, failing if any event is not
enabled. -/
def runEvents : List Event → HookState → Option HookState
  | [], s => some s
  | ev :: evs, s =>
      match step ev s with
      | some s1 => runEvents evs s1
      | none => none

/-- The states a hook instance can actually be in: reachable from the
initial state by enabled events. -/
inductive Reachable : HookState → Prop
  | init : Reachable initialState
  | step {s ev s1} : Reachable s → step ev s = some s1 → Reachable s1

/-- The inductive invariant of the controller, strong enough to settle
the claims about reachable states. -/
structure Inv (s : HookState) : Prop where
  refData : s.workerRef = none → s.data = none
  refTok : s.workerRef = none → s.timeoutRef = none
  termRef : s.status = .terminated → s.workerRef = none
  idleRef : s.status = .idle → s.workerRef = none
  idleNull : s.status = .idle → s.data = none ∧ s.error = none
  termNull : s.status = .terminated → s.data = none ∧ s.error = none
  succErr : s.status = .success → s.error = none
  errFull : s.status = .error → s.error ≠ none ∧ s.data = none
  runNull : s.status = .running → s.data = none ∧ s.workerRef ≠ none
  pendTok : s.pending = [] ∨
    ∃ t c, s.pending = [(t, c)] ∧ s.timeoutRef = some t ∧ s.workerRef ≠ none
  spawnRange : s.spawned = List.range s.nextHandle
  termNodup : s.termLog.Nodup
  termSub : ∀ h ∈ s.termLog, h ∈ s.spawned
  refLive : ∀ w, s.workerRef = some w →
    w ∈ s.spawned ∧ w ∉ s.termLog ∧ ∀ h ∈ s.spawned, h ≠ w → h ∈ s.termLog
  noneDead : s.workerRef = none → ∀ h ∈ s.spawned, h ∈ s.termLog

/-- The nullity invariant exactly as the specification states it
(section 3 of the spec): `Success` iff result non-null and error null,
`Error` iff error non-null and result null, `Idle`/`Terminated` imply
both null, `Running` implies both null and a live handle. -/
def specNullity (s : HookState) : Prop :=
  (s.status = .success ↔ s.data ≠ none ∧ s.error = none) ∧
  (s.status = .error ↔ s.error ≠ none ∧ s.data = none) ∧
  ((s.status = .idle ∨ s.status = .terminated) →
    s.data = none ∧ s.error = none) ∧
  (s.status = .running →
    s.data = none ∧ s.error = none ∧ s.workerRef ≠ none)

instance (s : HookState) : Decidable (specNullity s) := by
  unfold specNullity; infer_instance

/-- Handles that have been spawned and never had their terminate
capability invoked. -/
def liveHandles (s : HookState) : List Nat :=
  s.spawned.filter (fun h => decide (h ∉ s.termLog))

/-- Concrete reachable state: one effect run on a good source, no
timeout configured — a plain `running` state holding handle 0. -/
def sRun : HookState := effectRun .ok 0 initialState

/-- Concrete reachable state: `running` with a pending timeout whose
closure captured the mount render's `idle` status. -/
def sTimed : HookState := effectRun .ok 100 initialState

/-- Concrete reachable state: `success` after a message payload `5`. -/
def sSucc : HookState := onmessage (some 5) sRun

/-- Concrete reachable state: `terminated` after a manual
`terminateWorker` from `sRun`. -/
def sTerm : HookState := terminateWorker sRun

/-- Concrete reachable state: `success` with a null data observable,
after a worker message whose payload is `null`. -/
def sNullData : HookState := onmessage none sRun

/-- Concrete reachable state: `error` after a construction failure on
the first effect run. -/
def sFail : HookState := effectRun (.fail 7) 0 initialState

/-- Concrete reachable state: `running` with a non-null error
observable — a successful re-initialization after a construction
failure (the cleanup is a no-op because no handle is live, so the stale
error survives into the new `running` cycle). -/
def sRunErr : HookState := effectRun .ok 0 sFail

/-- Result of the mount-scheduled timeout of `sTimed` firing: its
closure captured the `idle` render status, so it acts. -/
def sIdleFired : HookState :=
  timeoutAction .idle { sTimed with pending := [] }

/-- Concrete reachable state: `success` arriving while a timeout is
pending cancels the token (`sTimed` plus a message at t < deadline). -/
def sMsgTimed : HookState := onmessage (some 5) sTimed

/-- Concrete reachable state: source changed at a render whose status
was `success`, with a timeout configured — the freshly scheduled
timeout closure captures the stale `success` status. -/
def sStale : HookState := effectRun .ok 100 sMsgTimed

/-- Result of the stale-closure timeout of `sStale` firing: its
captured status is `success`, so the guard makes it a no-op. -/
def sStaleFired : HookState :=
  timeoutAction .success { sStale with pending := [] }

theorem nodup_append_one {l : List Nat} {a : Nat} (hl : l.Nodup)
    (ha : a ∉ l) : (l ++ [a]).Nodup := by
  simp [List.nodup_append, hl, ha]

theorem length_le_one_of_const {l : List Nat} {w : Nat} (hn : l.Nodup)
    (hall : ∀ x ∈ l, x = w) : l.length ≤ 1 := by
  cases l with
  | nil => simp
  | cons a r =>
    cases r with
    | nil => simp
    | cons b r2 =>
      exfalso
      have ha : a = w := hall a (by simp)
      have hb : b = w := hall b (by simp)
      have hnm : a ∉ b :: r2 := (List.nodup_cons.mp hn).1
      exact hnm (by simp [ha, hb])

theorem clearTimeoutRef_workerRef (s : HookState) :
    (clearTimeoutRef s).workerRef = s.workerRef := by
  unfold clearTimeoutRef; split <;> rfl

theorem clearTimeoutRef_timeoutRef (s : HookState) :
    (clearTimeoutRef s).timeoutRef = none := by
  unfold clearTimeoutRef; split
  · rfl
  · next heq => exact heq

theorem terminateWorker_of_none {s : HookState} (hw : s.workerRef = none) :
    terminateWorker s = s := by
  unfold terminateWorker; rw [hw]

theorem terminateWorker_of_some {s : HookState} (h : Inv s) {w : Nat}
    (hw : s.workerRef = some w) :
    terminateWorker s =
      { s with data := none, error := none, status := .terminated,
               workerRef := none, timeoutRef := none, pending := [],
               termLog := s.termLog ++ [w] } := by
  obtain ⟨dd, e, st, wr, tr, p, nh, nt, tl, sn, wn, sp⟩ := s
  have hw2 : wr = some w := hw
  subst hw2
  have hp : p = [] ∨ ∃ t c, p = [(t, c)] ∧ tr = some t ∧
      (some w : Option Nat) ≠ none := h.pendTok
  rcases hp with hp | ⟨t, c, hp, htr, _⟩
  · subst hp
    cases tr <;> simp [terminateWorker, clearTimeoutRef]
  · subst htr; subst hp
    simp [terminateWorker, clearTimeoutRef]

theorem terminateWorker_workerRef {s : HookState} :
    (terminateWorker s).workerRef = none := by
  unfold terminateWorker
  split
  · rw [clearTimeoutRef_workerRef]
  · next heq => exact heq

theorem inv_initial : Inv initialState := by
  constructor <;> simp [initialState]

theorem inv_terminateWorker {s : HookState} (h : Inv s) :
    Inv (terminateWorker s) := by
  cases hw : s.workerRef with
  | none => rw [terminateWorker_of_none hw]; exact h
  | some w =>
    obtain ⟨hwS, hwT, hwA⟩ := h.refLive w hw
    rw [terminateWorker_of_some h hw]
    exact {
      refData := fun _ => rfl
      refTok := fun _ => rfl
      termRef := fun _ => rfl
      idleRef := fun hx => nomatch hx
      idleNull := fun hx => nomatch hx
      termNull := fun _ => ⟨rfl, rfl⟩
      succErr := fun hx => nomatch hx
      errFull := fun hx => nomatch hx
      runNull := fun hx => nomatch hx
      pendTok := Or.inl rfl
      spawnRange := h.spawnRange
      termNodup := nodup_append_one h.termNodup hwT
      termSub := by
        intro x hx
        rcases List.mem_append.mp hx with hx1 | hx2
        · exact h.termSub x hx1
        · simp at hx2; subst hx2; exact hwS
      refLive := fun w2 hw2 => nomatch hw2
      noneDead := by
        intro _ x hx
        rcases eq_or_ne x w with rfl | hne
        · exact List.mem_append.mpr (Or.inr (by simp))
        · exact List.mem_append.mpr (Or.inl (hwA x hx hne)) }

theorem onmessage_eq {s : HookState} (h : Inv s) (d : Option Nat) :
    onmessage d s =
      { s with data := d, status := .success, error := none,
               timeoutRef := none, pending := [] } := by
  obtain ⟨dd, e, st, wr, tr, p, nh, nt, tl, sn, wn, sp⟩ := s
  have hp : p = [] ∨ ∃ t c, p = [(t, c)] ∧ tr = some t ∧
      wr ≠ none := h.pendTok
  rcases hp with hp | ⟨t, c, hp, htr, _⟩
  · subst hp
    cases tr <;> simp [onmessage, clearTimeoutRef]
  · subst htr; subst hp
    simp [onmessage, clearTimeoutRef]

theorem onerror_eq {s : HookState} (h : Inv s) (e : Nat) :
    onerror e s =
      { s with error := some (.workerEvent e), status := .error,
               data := none, timeoutRef := none, pending := [] } := by
  obtain ⟨dd, e0, st, wr, tr, p, nh, nt, tl, sn, wn, sp⟩ := s
  have hp : p = [] ∨ ∃ t c, p = [(t, c)] ∧ tr = some t ∧
      wr ≠ none := h.pendTok
  rcases hp with hp | ⟨t, c, hp, htr, _⟩
  · subst hp
    cases tr <;> simp [onerror, clearTimeoutRef]
  · subst htr; subst hp
    simp [onerror, clearTimeoutRef]

theorem inv_onmessage {s : HookState} (h : Inv s) (hw : s.workerRef ≠ none)
    (d : Option Nat) : Inv (onmessage d s) := by
  rw [onmessage_eq h d]
  exact {
    refData := fun hx => absurd hx hw
    refTok := fun _ => rfl
    termRef := fun hx => nomatch hx
    idleRef := fun hx => nomatch hx
    idleNull := fun hx => nomatch hx
    termNull := fun hx => nomatch hx
    succErr := fun _ => rfl
    errFull := fun hx => nomatch hx
    runNull := fun hx => nomatch hx
    pendTok := Or.inl rfl
    spawnRange := h.spawnRange
    termNodup := h.termNodup
    termSub := h.termSub
    refLive := h.refLive
    noneDead := fun hx => absurd hx hw }

theorem inv_onerror {s : HookState} (h : Inv s) (hw : s.workerRef ≠ none)
    (e : Nat) : Inv (onerror e s) := by
  rw [onerror_eq h e]
  exact {
    refData := fun _ => rfl
    refTok := fun _ => rfl
    termRef := fun hx => nomatch hx
    idleRef := fun hx => nomatch hx
    idleNull := fun hx => nomatch hx
    termNull := fun hx => nomatch hx
    succErr := fun hx => nomatch hx
    errFull := fun _ => ⟨by simp, rfl⟩
    runNull := fun hx => nomatch hx
    pendTok := Or.inl rfl
    spawnRange := h.spawnRange
    termNodup := h.termNodup
    termSub := h.termSub
    refLive := h.refLive
    noneDead := fun hx => absurd hx hw }

theorem inv_postFailure {s : HookState} (h : Inv s)
    (hcond : s.workerRef = none ∨ s.status = .terminated) :
    Inv (postFailure s) := by
  have hd : s.data = none := by
    rcases hcond with hx | hx
    · exact h.refData hx
    · exact (h.termNull hx).1
  exact {
    refData := fun _ => hd
    refTok := h.refTok
    termRef := fun hx => nomatch hx
    idleRef := fun hx => nomatch hx
    idleNull := fun hx => nomatch hx
    termNull := fun hx => nomatch hx
    succErr := fun hx => nomatch hx
    errFull := fun _ => ⟨by simp [postFailure], hd⟩
    runNull := fun hx => nomatch hx
    pendTok := h.pendTok
    spawnRange := h.spawnRange
    termNodup := h.termNodup
    termSub := h.termSub
    refLive := h.refLive
    noneDead := h.noneDead }

theorem inv_postMessage {s : HookState} (h : Inv s) (m : Nat) :
    Inv (postMessage m s) := by
  cases hw : s.workerRef with
  | none =>
    have heq : postMessage m s = postFailure s := by
      unfold postMessage; rw [hw]
    rw [heq]
    exact inv_postFailure h (Or.inl hw)
  | some w =>
    have heq : postMessage m s =
        if s.status ≠ WorkerStatus.terminated
        then { s with sent := s.sent ++ [(w, m)] } else postFailure s := by
      unfold postMessage; rw [hw]
    rw [heq]
    by_cases hst : s.status ≠ .terminated
    · rw [if_pos hst]
      exact {
        refData := h.refData
        refTok := h.refTok
        termRef := h.termRef
        idleRef := h.idleRef
        idleNull := h.idleNull
        termNull := h.termNull
        succErr := h.succErr
        errFull := h.errFull
        runNull := h.runNull
        pendTok := h.pendTok
        spawnRange := h.spawnRange
        termNodup := h.termNodup
        termSub := h.termSub
        refLive := h.refLive
        noneDead := h.noneDead }
    · rw [if_neg hst]
      exact inv_postFailure h (Or.inr (not_not.mp hst))

theorem inv_effectBody {s : HookState} (h : Inv s) (hw : s.workerRef = none)
    (src : Source) (tmo : Nat) (c : WorkerStatus) :
    Inv (effectBody src tmo c s) := by
  have hd : s.data = none := h.refData hw
  have htr : s.timeoutRef = none := h.refTok hw
  have hpe : s.pending = [] := by
    rcases h.pendTok with hp | ⟨t, c2, hp, _, hwne⟩
    · exact hp
    · exact absurd hw hwne
  have hnS : s.nextHandle ∉ s.termLog := by
    intro hmem
    have := h.termSub _ hmem
    rw [h.spawnRange] at this
    exact absurd (List.mem_range.mp this) (by omega)
  cases src with
  | empty => exact h
  | fail e =>
    exact {
      refData := fun _ => hd
      refTok := fun _ => htr
      termRef := fun hx => nomatch hx
      idleRef := fun hx => nomatch hx
      idleNull := fun hx => nomatch hx
      termNull := fun hx => nomatch hx
      succErr := fun hx => nomatch hx
      errFull := fun _ => ⟨by simp [effectBody], hd⟩
      runNull := fun hx => nomatch hx
      pendTok := Or.inl hpe
      spawnRange := h.spawnRange
      termNodup := h.termNodup
      termSub := h.termSub
      refLive := by
        intro w2 hw2
        rw [show ((effectBody (.fail e) tmo c s).workerRef : Option Nat)
          = s.workerRef from rfl, hw] at hw2
        exact absurd hw2 (by simp)
      noneDead := fun _ => h.noneDead hw }
  | ok =>
    have hrefLive : ∀ w2, some s.nextHandle = some w2 →
        w2 ∈ s.spawned ++ [s.nextHandle] ∧ w2 ∉ s.termLog ∧
        ∀ x ∈ s.spawned ++ [s.nextHandle], x ≠ w2 → x ∈ s.termLog := by
      intro w2 hw2
      obtain rfl : s.nextHandle = w2 := Option.some.inj hw2
      refine ⟨List.mem_append.mpr (Or.inr (by simp)), hnS, ?_⟩
      intro x hx hne
      rcases List.mem_append.mp hx with hx1 | hx2
      · exact h.noneDead hw x hx1
      · simp at hx2; exact absurd hx2 hne
    have hspawn : s.spawned ++ [s.nextHandle] =
        List.range (s.nextHandle + 1) := by
      rw [h.spawnRange, List.range_succ]
    have hsub : ∀ x ∈ s.termLog, x ∈ s.spawned ++ [s.nextHandle] :=
      fun x hx => List.mem_append.mpr (Or.inl (h.termSub x hx))
    by_cases htmo : tmo ≠ 0
    · unfold effectBody
      rw [if_pos htmo]
      exact {
        refData := fun hx => nomatch hx
        refTok := fun hx => nomatch hx
        termRef := fun hx => nomatch hx
        idleRef := fun hx => nomatch hx
        idleNull := fun hx => nomatch hx
        termNull := fun hx => nomatch hx
        succErr := fun hx => nomatch hx
        errFull := fun hx => nomatch hx
        runNull := fun _ => ⟨hd, by simp⟩
        pendTok := Or.inr ⟨s.nextToken, c, by rw [hpe]; rfl, rfl, by simp⟩
        spawnRange := hspawn
        termNodup := h.termNodup
        termSub := hsub
        refLive := hrefLive
        noneDead := fun hx => nomatch hx }
    · unfold effectBody
      rw [if_neg htmo]
      exact {
        refData := fun hx => nomatch hx
        refTok := fun _ => htr
        termRef := fun hx => nomatch hx
        idleRef := fun hx => nomatch hx
        idleNull := fun hx => nomatch hx
        termNull := fun hx => nomatch hx
        succErr := fun hx => nomatch hx
        errFull := fun hx => nomatch hx
        runNull := fun _ => ⟨hd, by simp⟩
        pendTok := Or.inl hpe
        spawnRange := hspawn
        termNodup := h.termNodup
        termSub := hsub
        refLive := hrefLive
        noneDead := fun hx => nomatch hx }

theorem inv_effectRun {s : HookState} (h : Inv s) (src : Source)
    (tmo : Nat) : Inv (effectRun src tmo s) :=
  inv_effectBody (inv_terminateWorker h) terminateWorker_workerRef src tmo
    s.status

theorem inv_errStatus {u : HookState} (h : Inv u) (hd : u.data = none)
    (e : WErr) : Inv { u with error := some e, status := .error } :=
  { refData := fun _ => hd
    refTok := h.refTok
    termRef := fun hx => nomatch hx
    idleRef := fun hx => nomatch hx
    idleNull := fun hx => nomatch hx
    termNull := fun hx => nomatch hx
    succErr := fun hx => nomatch hx
    errFull := fun _ => ⟨by simp, hd⟩
    runNull := fun hx => nomatch hx
    pendTok := h.pendTok
    spawnRange := h.spawnRange
    termNodup := h.termNodup
    termSub := h.termSub
    refLive := h.refLive
    noneDead := h.noneDead }

theorem terminateWorker_data {s : HookState} (h : Inv s) :
    (terminateWorker s).data = none := by
  cases hw : s.workerRef with
  | none => rw [terminateWorker_of_none hw]; exact h.refData hw
  | some w => rw [terminateWorker_of_some h hw]

theorem inv_pending_update {s : HookState} (h : Inv s) {l : List (Nat × WorkerStatus)}
    (hl : l = [] ∨ ∃ t c, l = [(t, c)] ∧ s.timeoutRef = some t ∧
      s.workerRef ≠ none) : Inv { s with pending := l } :=
  { refData := h.refData
    refTok := h.refTok
    termRef := h.termRef
    idleRef := h.idleRef
    idleNull := h.idleNull
    termNull := h.termNull
    succErr := h.succErr
    errFull := h.errFull
    runNull := h.runNull
    pendTok := hl
    spawnRange := h.spawnRange
    termNodup := h.termNodup
    termSub := h.termSub
    refLive := h.refLive
    noneDead := h.noneDead }

theorem inv_timeoutAction {s : HookState} (h : Inv s) (c : WorkerStatus) :
    Inv (timeoutAction c s) := by
  unfold timeoutAction
  by_cases hc : c ≠ .success ∧ c ≠ .error
  · rw [if_pos hc]
    exact inv_errStatus (inv_terminateWorker h)
      (terminateWorker_data h) (.errMsg timedOutText)
  · rw [if_neg hc]; exact h

theorem inv_step {s s1 : HookState} (h : Inv s) {ev : Event}
    (hstep : step ev s = some s1) : Inv s1 := by
  cases ev with
  | reinit src tmo =>
    obtain rfl : effectRun src tmo s = s1 := Option.some.inj hstep
    exact inv_effectRun h src tmo
  | message d =>
    simp only [step] at hstep
    by_cases hw : s.workerRef.isSome = true
    · rw [if_pos hw] at hstep
      obtain rfl : onmessage d s = s1 := Option.some.inj hstep
      exact inv_onmessage h (Option.ne_none_iff_isSome.mpr hw) d
    · rw [if_neg hw] at hstep
      exact absurd hstep (by simp)
  | workerError e =>
    simp only [step] at hstep
    by_cases hw : s.workerRef.isSome = true
    · rw [if_pos hw] at hstep
      obtain rfl : onerror e s = s1 := Option.some.inj hstep
      exact inv_onerror h (Option.ne_none_iff_isSome.mpr hw) e
    · rw [if_neg hw] at hstep
      exact absurd hstep (by simp)
  | post m =>
    obtain rfl : postMessage m s = s1 := Option.some.inj hstep
    exact inv_postMessage h m
  | terminate =>
    obtain rfl : terminateWorker s = s1 := Option.some.inj hstep
    exact inv_terminateWorker h
  | fire t =>
    simp only [step] at hstep
    cases hfind : s.pending.find? (fun p => p.1 == t) with
    | none => rw [hfind] at hstep; exact absurd hstep (by simp)
    | some pr =>
      rw [hfind] at hstep
      obtain rfl : timeoutAction pr.2
          { s with pending := s.pending.filter (fun q => q.1 != t) } = s1 :=
        Option.some.inj hstep
      have hmid : Inv { s with
          pending := s.pending.filter (fun q => q.1 != t) } := by
        apply inv_pending_update h
        rcases h.pendTok with hp | ⟨t2, c, hp, htr, hwne⟩
        · rw [hp]; exact Or.inl rfl
        · rw [hp]
          have ht2 : t2 = t := by
            rw [hp] at hfind
            by_cases he : t2 == t
            · exact eq_of_beq he
            · simp [List.find?, he] at hfind
          subst ht2
          exact Or.inl (by simp)
      exact inv_timeoutAction hmid pr.2

theorem reachable_inv {s : HookState} (h : Reachable s) : Inv s := by
  induction h with
  | init => exact inv_initial
  | step _ hstep ih => exact inv_step ih hstep

theorem clearTimeoutRef_status (s : HookState) :
    (clearTimeoutRef s).status = s.status := by
  unfold clearTimeoutRef; split <;> rfl

theorem clearTimeoutRef_data (s : HookState) :
    (clearTimeoutRef s).data = s.data := by
  unfold clearTimeoutRef; split <;> rfl

theorem clearTimeoutRef_error (s : HookState) :
    (clearTimeoutRef s).error = s.error := by
  unfold clearTimeoutRef; split <;> rfl

theorem terminateWorker_pending {s : HookState} (h : Inv s) :
    (terminateWorker s).pending = [] := by
  cases hw : s.workerRef with
  | none =>
    rw [terminateWorker_of_none hw]
    rcases h.pendTok with hp | ⟨t, c, hp, _, hwne⟩
    · exact hp
    · exact absurd hw hwne
  | some w => rw [terminateWorker_of_some h hw]

theorem terminateWorker_timeoutRef {s : HookState} (h : Inv s) :
    (terminateWorker s).timeoutRef = none := by
  cases hw : s.workerRef with
  | none => rw [terminateWorker_of_none hw]; exact h.refTok hw
  | some w => rw [terminateWorker_of_some h hw]

theorem terminateWorker_counters (s : HookState) :
    (terminateWorker s).nextToken = s.nextToken ∧
    (terminateWorker s).nextHandle = s.nextHandle ∧
    (terminateWorker s).spawned = s.spawned := by
  unfold terminateWorker
  split
  · unfold clearTimeoutRef; split <;> exact ⟨rfl, rfl, rfl⟩
  · exact ⟨rfl, rfl, rfl⟩

theorem postMessage_fail_eq {s : HookState} (m : Nat)
    (hcond : s.workerRef = none ∨ s.status = .terminated) :
    postMessage m s = postFailure s := by
  obtain ⟨dd, e, st, wr, tr, p, nh, nt, tl, sn, wn, sp⟩ := s
  rcases hcond with hx | hx
  · have hx2 : wr = none := hx
    subst hx2
    rfl
  · have hx2 : st = WorkerStatus.terminated := hx
    subst hx2
    cases wr with
    | none => rfl
    | some w => simp [postMessage]

theorem postMessage_ok_eq {s : HookState} (m : Nat) {w : Nat}
    (hw : s.workerRef = some w) (hst : s.status ≠ .terminated) :
    postMessage m s = { s with sent := s.sent ++ [(w, m)] } := by
  obtain ⟨dd, e, st, wr, tr, p, nh, nt, tl, sn, wn, sp⟩ := s
  have hw2 : wr = some w := hw
  subst hw2
  have hst2 : st ≠ WorkerStatus.terminated := hst
  simp [postMessage, hst2]

theorem effectBody_ok_proj (tmo : Nat) (c : WorkerStatus) (u : HookState) :
    (effectBody .ok tmo c u).workerRef = some u.nextHandle ∧
    (effectBody .ok tmo c u).termLog = u.termLog ∧
    (effectBody .ok tmo c u).status = .running ∧
    (effectBody .ok tmo c u).spawned = u.spawned ++ [u.nextHandle] ∧
    (effectBody .ok tmo c u).nextHandle = u.nextHandle + 1 := by
  by_cases htmo : tmo ≠ 0 <;> simp [effectBody, htmo]

theorem reachable_sRun : Reachable sRun :=
  @Reachable.step initialState (.reinit .ok 0) sRun Reachable.init
    (by decide)

theorem reachable_sTimed : Reachable sTimed :=
  @Reachable.step initialState (.reinit .ok 100) sTimed Reachable.init
    (by decide)

theorem reachable_sSucc : Reachable sSucc :=
  @Reachable.step sRun (.message (some 5)) sSucc reachable_sRun (by decide)

theorem reachable_sTerm : Reachable sTerm :=
  @Reachable.step sRun .terminate sTerm reachable_sRun (by decide)

theorem reachable_sNullData : Reachable sNullData :=
  @Reachable.step sRun (.message none) sNullData reachable_sRun (by decide)

theorem reachable_sFail : Reachable sFail :=
  @Reachable.step initialState (.reinit (.fail 7) 0) sFail Reachable.init
    (by decide)

theorem reachable_sRunErr : Reachable sRunErr :=
  @Reachable.step sFail (.reinit .ok 0) sRunErr reachable_sFail (by decide)

theorem reachable_sMsgTimed : Reachable sMsgTimed :=
  @Reachable.step sTimed (.message (some 5)) sMsgTimed reachable_sTimed
    (by decide)

theorem reachable_sStale : Reachable sStale :=
  @Reachable.step sMsgTimed (.reinit .ok 100) sStale reachable_sMsgTimed
    (by decide)

theorem count_append_one {l : List Nat} {w : Nat} (hnot : w ∉ l) :
    (l ++ [w]).count w = 1 := by
  simp [List.count_append, List.count_eq_zero.mpr hnot]

/-- C1 counterexample: the spec's nullity invariant fails on reachable
states.  After a worker message whose payload is `null`, the status is
`success` with `data = null` (refuting `Success ⇔ data non-null ∧ error
null`); and after a construction failure followed by a successful
re-initialization, the status is `running` with a non-null `error`
(refuting `Running ⇒ both null`). -/
theorem c1_counterexample :
    Reachable sNullData ∧ ¬ specNullity sNullData ∧
    Reachable sRunErr ∧ ¬ specNullity sRunErr :=
  ⟨reachable_sNullData, by decide, reachable_sRunErr, by decide⟩

/-- C1 (amended): after every transition the reachable state satisfies
the weakened nullity invariant: `Success` implies error null (data may
be null, e.g. for a null message payload); `Error` implies error
non-null and data null; `Idle` or `Terminated` imply data and error
both null; `Running` implies data null and a live worker handle (error
may be non-null when a construction failure preceded the current
cycle). -/
theorem c1_amended_nullity {s : HookState} (h : Reachable s) :
    (s.status = .success → s.error = none) ∧
    (s.status = .error → s.error ≠ none ∧ s.data = none) ∧
    ((s.status = .idle ∨ s.status = .terminated) →
      s.data = none ∧ s.error = none) ∧
    (s.status = .running → s.data = none ∧ s.workerRef ≠ none) := by
  have hi := reachable_inv h
  exact ⟨hi.succErr, hi.errFull,
    fun hx => hx.elim hi.idleNull hi.termNull, hi.runNull⟩

/-- Witness for C1 (amended) at the concrete reachable state `sSucc`. -/
theorem c1_amended_nullity_witness :
    (sSucc.status = .success → sSucc.error = none) ∧
    (sSucc.status = .error → sSucc.error ≠ none ∧ sSucc.data = none) ∧
    ((sSucc.status = .idle ∨ sSucc.status = .terminated) →
      sSucc.data = none ∧ sSucc.error = none) ∧
    (sSucc.status = .running → sSucc.data = none ∧ sSucc.workerRef ≠ none) :=
  c1_amended_nullity reachable_sSucc

/-- C2: `postMessage` with no live handle or status `terminated`
forwards nothing, emits the diagnostic notice, sets `error` to the
misuse failure and status to `error`; with a live handle and status not
`terminated` it forwards the payload verbatim to that handle and
leaves `data`, `error` and `status` unchanged. -/
theorem c2_postMessage_policy (s : HookState) (m : Nat) :
    ((s.workerRef = none ∨ s.status = .terminated) →
      (postMessage m s).sent = s.sent ∧
      (postMessage m s).warnings = s.warnings ++ [warnText] ∧
      (postMessage m s).error = some (.errMsg warnText) ∧
      (postMessage m s).status = .error) ∧
    (∀ w, s.workerRef = some w → s.status ≠ .terminated →
      (postMessage m s).sent = s.sent ++ [(w, m)] ∧
      (postMessage m s).data = s.data ∧
      (postMessage m s).error = s.error ∧
      (postMessage m s).status = s.status) := by
  constructor
  · intro hcond
    rw [postMessage_fail_eq m hcond]
    exact ⟨rfl, rfl, rfl, rfl⟩
  · intro w hw hst
    rw [postMessage_ok_eq m hw hst]
    exact ⟨rfl, rfl, rfl, rfl⟩

/-- Witness for C2 at the concrete states `sTerm` (failure branch) and
`sRun` (success branch). -/
theorem c2_witness :
    (postMessage 3 sTerm).status = .error ∧
    (postMessage 3 sTerm).warnings = sTerm.warnings ++ [warnText] ∧
    (postMessage 7 sRun).sent = sRun.sent ++ [(0, 7)] := by
  refine ⟨((c2_postMessage_policy sTerm 3).1 (Or.inl (by decide))).2.2.2,
    ((c2_postMessage_policy sTerm 3).1 (Or.inl (by decide))).2.1, ?_⟩
  exact ((c2_postMessage_policy sRun 7).2 0 (by decide) (by decide)).1

/-- C3: `terminateWorker` with a live handle invokes that handle's
terminate capability exactly once, nulls the handle reference, cancels
any pending timeout token, sets status `terminated` and clears data and
error; with no live handle it is the identity. -/
theorem c3_terminateWorker {s : HookState} (h : Reachable s) :
    (∀ w, s.workerRef = some w →
      (terminateWorker s).termLog = s.termLog ++ [w] ∧
      (terminateWorker s).termLog.count w = 1 ∧
      (terminateWorker s).workerRef = none ∧
      (terminateWorker s).timeoutRef = none ∧
      (terminateWorker s).pending = [] ∧
      (terminateWorker s).status = .terminated ∧
      (terminateWorker s).data = none ∧
      (terminateWorker s).error = none) ∧
    (s.workerRef = none → terminateWorker s = s) := by
  have hi := reachable_inv h
  constructor
  · intro w hw
    have hnot : w ∉ s.termLog := (hi.refLive w hw).2.1
    rw [terminateWorker_of_some hi hw]
    exact ⟨rfl, count_append_one hnot, rfl, rfl, rfl, rfl, rfl, rfl⟩
  · exact terminateWorker_of_none

/-- Witness for C3 at the concrete states `sRun` (live handle 0) and
`sTerm` (no live handle). -/
theorem c3_witness :
    (terminateWorker sRun).status = .terminated ∧
    (terminateWorker sRun).termLog.count 0 = 1 ∧
    terminateWorker sTerm = sTerm := by
  refine ⟨((c3_terminateWorker reachable_sRun).1 0 (by decide)).2.2.2.2.2.1,
    ((c3_terminateWorker reachable_sRun).1 0 (by decide)).2.1,
    (c3_terminateWorker reachable_sTerm).2 (by decide)⟩

/-- C4 counterexample: the timeout action is not purely time-based.
After the source changes at a render whose status is `success`, the
freshly scheduled timeout captures that stale status; when it fires
while still pending (token 2 in `sStale.pending`), the guard makes it a
no-op: the live handle 1 is not terminated, no timeout error is set,
and the status stays `running`, contradicting the claimed conclusion. -/
theorem c4_counterexample :
    Reachable sStale ∧
    (2, WorkerStatus.success) ∈ sStale.pending ∧
    step (.fire 2) sStale = some sStaleFired ∧
    sStaleFired.status = .running ∧ sStaleFired.error = none ∧
    sStaleFired.workerRef = some 1 ∧ sStaleFired.termLog = [0] :=
  ⟨reachable_sStale, by decide, by decide, by decide, by decide,
    by decide, by decide⟩

/-- C4 (amended): when a scheduled timeout fires while still pending,
it acts only if the status captured by its closure at the render whose
effect scheduled it was neither `success` nor `error` (so on a fresh
mount, whose captured status is `idle`, it always acts); in that case
the live handle's terminate capability is invoked, `error` becomes the
Error with message "Worker timed out", `data` is null and status is
`error`.  The effect thus depends on the captured schedule-time status,
not on the status at firing time. -/
theorem c4_amended_stale_timeout {s s1 : HookState} (h : Reachable s)
    {t : Nat} {c : WorkerStatus} (hmem : (t, c) ∈ s.pending)
    (hcs : c ≠ .success) (hce : c ≠ .error)
    (hstep : step (.fire t) s = some s1) :
    s1.status = .error ∧ s1.error = some (.errMsg timedOutText) ∧
    s1.data = none ∧ s1.workerRef = none ∧
    ∃ w, s.workerRef = some w ∧ s1.termLog = s.termLog ++ [w] := by
  have hi := reachable_inv h
  rcases hi.pendTok with hp | ⟨t2, c2, hp, htr, hwne⟩
  · rw [hp] at hmem; exact absurd hmem (by simp)
  · rw [hp] at hmem
    simp at hmem
    obtain ⟨h1, h2⟩ := hmem
    subst h1; subst h2
    simp only [step] at hstep
    rw [hp] at hstep
    simp at hstep
    subst hstep
    have hsm : Inv { s with pending := ([] : List (Nat × WorkerStatus)) } :=
      inv_pending_update hi (Or.inl rfl)
    obtain ⟨w, hw⟩ : ∃ w, s.workerRef = some w := by
      cases hx : s.workerRef with
      | none => exact absurd hx hwne
      | some w => exact ⟨w, rfl⟩
    have hchar := terminateWorker_of_some hsm (w := w) hw
    unfold timeoutAction
    rw [if_pos ⟨hcs, hce⟩, hchar]
    exact ⟨rfl, rfl, rfl, rfl, w, hw, rfl⟩

/-- Witness for C4 (amended) at the mount-scheduled timeout of
`sTimed`, whose closure captured the `idle` render status. -/
theorem c4_amended_stale_timeout_witness :
    sIdleFired.status = .error ∧
    sIdleFired.error = some (.errMsg timedOutText) ∧
    sIdleFired.workerRef = none := by
  have h := @c4_amended_stale_timeout sTimed sIdleFired reachable_sTimed 1
    WorkerStatus.idle (by decide) (by decide) (by decide) (by decide)
  exact ⟨h.1, h.2.1, h.2.2.2.1⟩

/-- C5: a worker message arriving while a timeout is pending sets
`data` to the payload, status to `success`, clears `error`, cancels the
pending timeout token (the pending queue becomes empty, so no timeout
can fire afterwards) and invokes no terminate capability. -/
theorem c5_message_cancels_timeout {s : HookState} (h : Reachable s)
    (_hw : s.workerRef ≠ none) (d : Option Nat) :
    (onmessage d s).status = .success ∧
    (onmessage d s).data = d ∧
    (onmessage d s).error = none ∧
    (onmessage d s).pending = [] ∧
    (onmessage d s).termLog = s.termLog ∧
    ∀ t, step (.fire t) (onmessage d s) = none := by
  have hi := reachable_inv h
  rw [onmessage_eq hi d]
  exact ⟨rfl, rfl, rfl, rfl, rfl, fun t => rfl⟩

/-- Witness for C5: a message at `sTimed` (timeout pending) cancels the
token, and the original deadline firing is no longer enabled. -/
theorem c5_message_cancels_timeout_witness :
    (onmessage (some 5) sTimed).status = .success ∧
    (onmessage (some 5) sTimed).pending = [] ∧
    step (.fire 1) (onmessage (some 5) sTimed) = none := by
  have h := c5_message_cancels_timeout reachable_sTimed (by decide) (some 5)
  exact ⟨h.1, h.2.2.2.1, h.2.2.2.2.2 1⟩

/-- C6: when handle construction throws during an initialization
effect, the thrown value is captured as the error state, status becomes
`error`, no live handle is retained, and no timeout is scheduled (the
pending queue is empty, the token ref is clear and the token counter is
untouched). -/
theorem c6_construction_failure {s : HookState} (h : Reachable s)
    (e : Nat) (tmo : Nat) :
    (effectRun (.fail e) tmo s).status = .error ∧
    (effectRun (.fail e) tmo s).error = some (.thrown e) ∧
    (effectRun (.fail e) tmo s).workerRef = none ∧
    (effectRun (.fail e) tmo s).pending = [] ∧
    (effectRun (.fail e) tmo s).timeoutRef = none ∧
    (effectRun (.fail e) tmo s).nextToken = s.nextToken ∧
    (effectRun (.fail e) tmo s).spawned = s.spawned := by
  have hi := reachable_inv h
  exact ⟨rfl, rfl, terminateWorker_workerRef, terminateWorker_pending hi,
    terminateWorker_timeoutRef hi, (terminateWorker_counters s).1,
    (terminateWorker_counters s).2.2⟩

/-- Witness for C6 at the concrete state `sRun`. -/
theorem c6_construction_failure_witness :
    (effectRun (.fail 9) 50 sRun).status = .error ∧
    (effectRun (.fail 9) 50 sRun).error = some (.thrown 9) ∧
    (effectRun (.fail 9) 50 sRun).workerRef = none := by
  have h := c6_construction_failure reachable_sRun 9 50
  exact ⟨h.1, h.2.1, h.2.2.1⟩

/-- C7 counterexample: re-initializing with an empty source after a
live cycle does not leave status `idle` — the teardown that runs first
leaves it `terminated`. -/
theorem c7_counterexample :
    (runEvents [.reinit .ok 0, .reinit .empty 0] initialState).map
      (fun s => s.status) = some .terminated ∧
    (runEvents [.reinit .ok 0, .reinit .empty 0] initialState).map
      (fun s => s.status) ≠ some .idle :=
  ⟨by decide, by decide⟩

/-- C7 (amended): initializing with an empty source descriptor never
creates a handle (nothing is spawned, no handle is live afterwards);
when no handle was live — in particular on the initial mount, where the
status is `idle` — the whole state is left unchanged; when a live
handle existed, the teardown runs and leaves status `terminated`, not
`idle`. -/
theorem c7_amended_empty_source (s : HookState) (tmo : Nat) :
    effectRun .empty tmo s = terminateWorker s ∧
    (effectRun .empty tmo s).spawned = s.spawned ∧
    (effectRun .empty tmo s).workerRef = none ∧
    (effectRun .empty tmo s).nextHandle = s.nextHandle ∧
    (s.workerRef = none → effectRun .empty tmo s = s) ∧
    (∀ w, s.workerRef = some w →
      (effectRun .empty tmo s).status = .terminated) := by
  refine ⟨rfl, (terminateWorker_counters s).2.2, terminateWorker_workerRef,
    (terminateWorker_counters s).2.1,
    fun hw => terminateWorker_of_none hw, ?_⟩
  intro w hw
  show (terminateWorker s).status = .terminated
  unfold terminateWorker
  rw [hw]
  show (clearTimeoutRef _).status = _
  rw [clearTimeoutRef_status]

/-- Witness for C7 (amended): the initial mount with an empty source
stays `idle` (the state is unchanged), while a re-initialization to an
empty source from the live state `sRun` ends `terminated`. -/
theorem c7_amended_empty_source_witness :
    effectRun .empty 0 initialState = initialState ∧
    (effectRun .empty 0 sRun).status = .terminated :=
  ⟨(c7_amended_empty_source initialState 0).2.2.2.2.1 rfl,
    (c7_amended_empty_source sRun 0).2.2.2.2.2 0 (by decide)⟩

/-- C8: in every reachable state at most one handle is live (spawned
and never terminated) and at most one timeout token is pending; and an
initialization effect on a good source from a state with a live handle
`w` terminates `w` exactly once and starts a fresh `running` cycle
whose handle is distinct from `w`. -/
theorem c8_single_ownership {s : HookState} (h : Reachable s) :
    (liveHandles s).length ≤ 1 ∧ s.pending.length ≤ 1 ∧
    ∀ w tmo, s.workerRef = some w →
      (effectRun .ok tmo s).workerRef = some s.nextHandle ∧
      s.nextHandle ≠ w ∧
      (effectRun .ok tmo s).termLog = s.termLog ++ [w] ∧
      (effectRun .ok tmo s).termLog.count w = 1 ∧
      (effectRun .ok tmo s).status = .running := by
  have hi := reachable_inv h
  refine ⟨?_, ?_, ?_⟩
  · cases hw : s.workerRef with
    | none =>
      have hfil : liveHandles s = [] := by
        unfold liveHandles
        apply List.filter_eq_nil_iff.mpr
        intro a ha
        simp only [decide_eq_true_eq, not_not]
        exact hi.noneDead hw a ha
      rw [hfil]
      simp
    | some w =>
      have hnsp : s.spawned.Nodup := by
        rw [hi.spawnRange]; exact List.nodup_range s.nextHandle
      have hnodup : (liveHandles s).Nodup := hnsp.filter _
      have hall : ∀ x ∈ liveHandles s, x = w := by
        intro x hx
        obtain ⟨hxs, hxd⟩ := List.mem_filter.mp hx
        by_contra hne
        exact (decide_eq_true_eq.mp hxd) ((hi.refLive w hw).2.2 x hxs hne)
      exact length_le_one_of_const hnodup hall
  · rcases hi.pendTok with hp | ⟨t, c, hp, _, _⟩ <;> simp [hp]
  · intro w tmo hw
    have hchar := terminateWorker_of_some hi hw
    have hne : s.nextHandle ≠ w := by
      have hmem : w ∈ s.spawned := (hi.refLive w hw).1
      rw [hi.spawnRange] at hmem
      have := List.mem_range.mp hmem
      omega
    have hcount : (s.termLog ++ [w]).count w = 1 :=
      count_append_one (hi.refLive w hw).2.1
    obtain ⟨hwr, htl, hst2, _, _⟩ :=
      effectBody_ok_proj tmo s.status (terminateWorker s)
    have hnt : (terminateWorker s).nextHandle = s.nextHandle :=
      (terminateWorker_counters s).2.1
    have hwr2 : (effectRun .ok tmo s).workerRef = some s.nextHandle := by
      rw [show effectRun .ok tmo s =
        effectBody .ok tmo s.status (terminateWorker s) from rfl, hwr, hnt]
    have htl2 : (effectRun .ok tmo s).termLog = s.termLog ++ [w] := by
      rw [show effectRun .ok tmo s =
        effectBody .ok tmo s.status (terminateWorker s) from rfl, htl, hchar]
    refine ⟨hwr2, hne, htl2, ?_, hst2⟩
    rw [htl2]
    exact hcount

/-- Witness for C8 at the concrete state `sRun` (live handle 0): the
re-initialization terminates handle 0 once and installs the distinct
handle 1. -/
theorem c8_single_ownership_witness :
    (liveHandles sRun).length ≤ 1 ∧
    (effectRun .ok 0 sRun).workerRef = some 1 ∧
    (effectRun .ok 0 sRun).termLog.count 0 = 1 ∧
    (effectRun .ok 0 sRun).status = .running := by
  have h := c8_single_ownership reachable_sRun
  have h3 := h.2.2 0 0 (by decide)
  exact ⟨h.1, h3.1, h3.2.2.2.1, h3.2.2.2.2⟩

/-- C9: when the `postMessage` precondition fails, only the error and
status observables (and the diagnostic log) change: the data observable
is left unchanged, as are the handle ref, the timeout state and the
forwarding log. -/
theorem c9_failure_frame (s : HookState) (m : Nat)
    (hcond : s.workerRef = none ∨ s.status = .terminated) :
    (postMessage m s).data = s.data ∧
    (postMessage m s).workerRef = s.workerRef ∧
    (postMessage m s).timeoutRef = s.timeoutRef ∧
    (postMessage m s).pending = s.pending ∧
    (postMessage m s).sent = s.sent ∧
    (postMessage m s).termLog = s.termLog ∧
    (postMessage m s).error = some (.errMsg warnText) ∧
    (postMessage m s).status = .error := by
  rw [postMessage_fail_eq m hcond]
  exact ⟨rfl, rfl, rfl, rfl, rfl, rfl, rfl, rfl⟩

/-- Witness for C9 at the concrete state `sTerm`. -/
theorem c9_failure_frame_witness :
    (postMessage 4 sTerm).data = sTerm.data ∧
    (postMessage 4 sTerm).status = .error := by
  have h := c9_failure_frame sTerm 4 (Or.inl (by decide))
  exact ⟨h.1, h.2.2.2.2.2.2.2⟩

/-- C10: a worker message whose payload is null still sets status
`success` and clears `error` while `data` is null — at the public
interface, `success` does not guarantee a non-null data observable. -/
theorem c10_null_payload_success {s s1 : HookState}
    (hstep : step (.message none) s = some s1) :
    s1.status = .success ∧ s1.data = none ∧ s1.error = none := by
  simp only [step] at hstep
  by_cases hw : s.workerRef.isSome = true
  · rw [if_pos hw] at hstep
    obtain rfl : onmessage none s = s1 := Option.some.inj hstep
    exact ⟨clearTimeoutRef_status _, clearTimeoutRef_data _,
      clearTimeoutRef_error _⟩
  · rw [if_neg hw] at hstep
    exact absurd hstep (by simp)

/-- Witness for C10 at the concrete state `sRun` receiving a null
payload. -/
theorem c10_null_payload_success_witness :
    sNullData.status = .success ∧ sNullData.data = none ∧
    sNullData.error = none :=
  @c10_null_payload_success sRun sNullData (by decide)

end UseWebworker
